import Mathlib

/-!
Verification development for the finbot Chinese bookkeeping NLP core
(`backend/services/nlp_parser.py`, `backend/utils/date_parser.py`,
`backend/routers/chat.py`).

Shallow embedding conventions:
* Python strings are `List Char`; `str.strip`, `str.split`, substring tests
  and the concrete regular expressions of the source are hand-rolled
  scanners over `List Char` that implement Python `re.search` semantics
  (leftmost match, alternation preference, greedy quantifiers) for the
  specific patterns appearing in the source.
* `\d` is embedded as the ASCII digit class (the inputs of the source and
  of the specification use only ASCII digits).
* Python `datetime.date` values are their proleptic-Gregorian ordinals
  (`date.toordinal()`), i.e. naturals in `1 .. 3652059`; `date.today()` is
  passed in explicitly as the reference ordinal.  `date` arithmetic that
  Python answers with `OverflowError` is an `Except.error`.
* Python floats are embedded as `ℚ`; every float computation performed by
  the source on the values considered here is exact.
-/

deriving instance DecidableEq for Except

set_option maxRecDepth 200000

/-! ## Character and string utilities -/

/-- ASCII decimal digit (embedding of the regex class `\d`). -/
def isDig (c : Char) : Bool := '0' ≤ c ∧ c ≤ '9'

/-- Python `\s` whitespace class (ASCII part). -/
def isSpc (c : Char) : Bool :=
  c = ' ' ∨ c = '\t' ∨ c = '\n' ∨ c = '\r' ∨ c = '\x0b' ∨ c = '\x0c'

/-- Numeric value of an ASCII digit character. -/
def digVal (c : Char) : ℕ := c.toNat - '0'.toNat

/-- Value of a list of ASCII digit characters read in base 10. -/
def digitsVal (cs : List Char) : ℕ := cs.foldl (fun a c => a * 10 + digVal c) 0

/-- Split a maximal leading run of characters satisfying `p` from the rest. -/
def takeRun (p : Char → Bool) : List Char → List Char × List Char
  | [] => ([], [])
  | c :: cs =>
    if p c then
      let r := takeRun p cs
      (c :: r.1, r.2)
    else ([], c :: cs)

/-- `needle.isPrefixOf hay` for character lists. -/
def leadsWith : List Char → List Char → Bool
  | [], _ => true
  | _ :: _, [] => false
  | a :: as, b :: bs => a = b && leadsWith as bs

/-- Python `needle in hay` substring test. -/
def hasSub (needle : List Char) : List Char → Bool
  | [] => leadsWith needle []
  | c :: cs => leadsWith needle (c :: cs) || hasSub needle cs

/-- Substring test on `String`s. -/
def strHasSub (needle hay : String) : Bool := hasSub needle.toList hay.toList

/-- Python `str.strip()`: drop leading and trailing whitespace. -/
def pyStrip (cs : List Char) : List Char :=
  ((cs.dropWhile (fun c => isSpc c)).reverse.dropWhile (fun c => isSpc c)).reverse

/-- Python `str.split()` (split on whitespace runs, dropping empties). -/
def pySplitWs (cs : List Char) : List (List Char) :=
  let rec go : List Char → List Char → List (List Char)
    | [], acc => if acc.isEmpty then [] else [acc.reverse]
    | c :: rest, acc =>
      if isSpc c then
        if acc.isEmpty then go rest [] else acc.reverse :: go rest []
      else go rest (c :: acc)
  go cs []

/-- Python `str.split(sep)` for a single-character separator
(keeps empty pieces, as Python does). -/
def splitOnChar (sep : Char) (cs : List Char) : List (List Char) :=
  let rec go : List Char → List Char → List (List Char)
    | [], acc => [acc.reverse]
    | c :: rest, acc =>
      if c = sep then acc.reverse :: go rest [] else go rest (c :: acc)
  go cs []

/-- Python `str.replace(needle, "")`: delete every occurrence of `needle`,
scanning left to right, non-overlapping.  `fuel` bounds recursion depth. -/
def delAllAux (needle : List Char) : ℕ → List Char → List Char
  | 0, cs => cs
  | _ + 1, [] => []
  | fuel + 1, c :: cs =>
    if needle ≠ [] ∧ leadsWith needle (c :: cs) then
      delAllAux needle fuel (List.drop (needle.length - 1) cs)
    else c :: delAllAux needle fuel cs

def delAll (needle cs : List Char) : List Char :=
  delAllAux needle cs.length cs

/-! ## Proleptic-Gregorian calendar (embedding of Python `datetime.date`)

A date is its Python ordinal (`date.toordinal()`), a natural in
`1 .. maxOrd`.  `mkDate y m d` is the ordinal of the given calendar day;
`yearOf`, `monthOf`, `dayOf`, `dayOfYearOf` recover the components. -/

def isLeap (y : ℕ) : Bool := (y % 4 = 0 ∧ y % 100 ≠ 0) ∨ y % 400 = 0

def daysInYear (y : ℕ) : ℕ := if isLeap y then 366 else 365

def daysInMonth (y m : ℕ) : ℕ :=
  if m = 2 then (if isLeap y then 29 else 28)
  else if m = 4 ∨ m = 6 ∨ m = 9 ∨ m = 11 then 30
  else 31

/-- Days in year `y` strictly before month `m`. -/
def daysBeforeMonth (y m : ℕ) : ℕ :=
  (List.range 12).foldl (fun a i => if i + 1 < m then a + daysInMonth y (i + 1) else a) 0

/-- Python `date(y, m, d).toordinal()` (ordinal 1 = 0001-01-01). -/
def mkDate (y m d : ℕ) : ℕ :=
  365 * (y - 1) + (y - 1) / 4 - (y - 1) / 100 + (y - 1) / 400 + daysBeforeMonth y m + d

/-- `date.max.toordinal()` in Python (9999-12-31). -/
def maxOrd : ℕ := 3652059

/-- Valid day-of-month for Python's `date` constructor / `replace`. -/
def validYMD (y m d : ℕ) : Bool :=
  1 ≤ y ∧ y ≤ 9999 ∧ 1 ≤ m ∧ m ≤ 12 ∧ 1 ≤ d ∧ d ≤ daysInMonth y m

/-- Year loop: starting from year `y` with `rest` days remaining, step one
year at a time.  `fuel ≥ rest` guarantees completion. -/
def yearLoop : ℕ → ℕ → ℕ → ℕ × ℕ
  | 0, y, rest => (y, rest)
  | fuel + 1, y, rest =>
    if daysInYear y < rest then yearLoop fuel (y + 1) (rest - daysInYear y)
    else (y, rest)

/-- `(year, day-of-year)` of an ordinal. -/
def splitYear (o : ℕ) : ℕ × ℕ := yearLoop o 1 o

/-- Month loop within a known year. -/
def monthLoop (y : ℕ) : ℕ → ℕ → ℕ → ℕ × ℕ
  | 0, m, rest => (m, rest)
  | fuel + 1, m, rest =>
    if daysInMonth y m < rest then monthLoop y fuel (m + 1) (rest - daysInMonth y m)
    else (m, rest)

def yearOf (o : ℕ) : ℕ := (splitYear o).1

def dayOfYearOf (o : ℕ) : ℕ := (splitYear o).2

def monthOf (o : ℕ) : ℕ := (monthLoop (yearOf o) 12 1 (dayOfYearOf o)).1

def dayOf (o : ℕ) : ℕ := (monthLoop (yearOf o) 12 1 (dayOfYearOf o)).2

/-- Python `date.weekday()` (Monday = 0); ordinal 1 is a Monday. -/
def pyWeekday (o : ℕ) : ℕ := (o - 1) % 7

/-- Python `date.replace(day=1)` on an ordinal. -/
def firstOfMonth (o : ℕ) : ℕ := o - (dayOf o - 1)

/-- Python `date.replace(month=1, day=1)` on an ordinal. -/
def firstOfYear (o : ℕ) : ℕ := o - (dayOfYearOf o - 1)

/-- `today - timedelta(days=n)`; `OverflowError` when the result would fall
before `date.min`. -/
def subDays (o n : ℕ) : Except Unit ℕ :=
  if n < o then .ok (o - n) else .error ()

/-- `today + timedelta(days=z)` for a signed offset. -/
def addDaysZ (o : ℕ) (z : ℤ) : Except Unit ℕ :=
  if 1 ≤ (o : ℤ) + z ∧ (o : ℤ) + z ≤ (maxOrd : ℤ) then .ok ((o : ℤ) + z).toNat
  else .error ()

/-- `date.replace(day=d)` with Python's `ValueError` as `Except.error`. -/
def replaceDay (o d : ℕ) : Except Unit ℕ :=
  if 1 ≤ d ∧ d ≤ daysInMonth (yearOf o) (monthOf o) then
    .ok (firstOfMonth o + (d - 1))
  else .error ()

/-! ## Regex scanners

Hand-rolled implementations of `re.search` for the concrete patterns in the
source.  Each scanner walks the text left to right (leftmost match); inside
one start position, greedy runs with the source patterns' backtracking
behaviour (for these patterns a failed maximal run can never succeed with a
shorter one, since the character after a shortened run belongs to the same
class and cannot match the tail). -/

/-- `re.search((clsA+|clsB+)‹ws›tail, text)`: leftmost maximal run of
`clsA` (preferred) or `clsB` followed by `\s*` and a tail accepted by
`tailOk`; returns the captured run. -/
def searchAltRun (clsA clsB : Char → Bool) (tailOk : List Char → Bool) :
    List Char → Option (List Char)
  | [] => none
  | c :: cs =>
    if clsA c then
      let r := takeRun clsA (c :: cs)
      if tailOk (r.2.dropWhile (fun x => isSpc x)) then some r.1
      else searchAltRun clsA clsB tailOk cs
    else if clsB c then
      let r := takeRun clsB (c :: cs)
      if tailOk (r.2.dropWhile (fun x => isSpc x)) then some r.1
      else searchAltRun clsA clsB tailOk cs
    else searchAltRun clsA clsB tailOk cs

/-- Single-class version of `searchAltRun`. -/
def searchRunWs (cls : Char → Bool) (tailOk : List Char → Bool)
    (cs : List Char) : Option (List Char) :=
  searchAltRun cls (fun _ => false) tailOk cs

/-- `re.search(cls+tail, text)` with no whitespace between run and tail. -/
def searchRunNoWs (cls : Char → Bool) (tailOk : List Char → Bool) :
    List Char → Option (List Char)
  | [] => none
  | c :: cs =>
    if cls c then
      let r := takeRun cls (c :: cs)
      if tailOk r.2 then some r.1 else searchRunNoWs cls tailOk cs
    else searchRunNoWs cls tailOk cs

/-- `re.search(lit ++ cls+…, text)`: literal `lit` immediately followed by a
nonempty maximal `cls` run (the optional suffix `[號日]?` of the source
pattern does not constrain the match). -/
def searchLitRun (lit : List Char) (cls : Char → Bool) :
    List Char → Option (List Char)
  | [] => none
  | c :: cs =>
    if leadsWith lit (c :: cs) then
      let r := takeRun cls ((c :: cs).drop lit.length)
      if r.1 ≠ [] then some r.1 else searchLitRun lit cls cs
    else searchLitRun lit cls cs

/-! ## DateParser (`backend/utils/date_parser.py`) -/

/-- `DateParser.CHINESE_NUMS`. -/
def dChineseNums (c : Char) : Option ℕ :=
  if c = '零' then some 0 else if c = '一' then some 1 else
  if c = '二' then some 2 else if c = '三' then some 3 else
  if c = '四' then some 4 else if c = '五' then some 5 else
  if c = '六' then some 6 else if c = '七' then some 7 else
  if c = '八' then some 8 else if c = '九' then some 9 else
  if c = '十' then some 10 else if c = '兩' then some 2 else
  if c = '两' then some 2 else none

/-- `DateParser.WEEKDAY_MAP`. -/
def weekdayMap (c : Char) : Option ℕ :=
  if c = '一' then some 0 else if c = '二' then some 1 else
  if c = '三' then some 2 else if c = '四' then some 3 else
  if c = '五' then some 4 else if c = '六' then some 5 else
  if c = '日' then some 6 else if c = '天' then some 6 else none

/-- Character class of the date patterns `[一二三四五六七八九十]`. -/
def dNumClass (c : Char) : Bool :=
  c = '一' ∨ c = '二' ∨ c = '三' ∨ c = '四' ∨ c = '五' ∨ c = '六' ∨
  c = '七' ∨ c = '八' ∨ c = '九' ∨ c = '十'

/-- Python `dict.get` on a single-character key list (keys of
`CHINESE_NUMS` are single characters, so longer strings never hit). -/
def lookup1 (m : Char → Option ℕ) : List Char → Option ℕ
  | [c] => m c
  | _ => none

/-- `DateParser._parse_chinese_number`. -/
def dParseChineseNumber (cs : List Char) : ℕ :=
  if cs ≠ [] ∧ cs.all (fun c => isDig c) then digitsVal cs
  else if cs.length = 1 then (lookup1 dChineseNums cs).getD 1
  else if hasSub ['十'] cs then
    let parts := splitOnChar '十' cs
    let r1 := match parts.head? with
      | some p0 => if p0 ≠ [] then (lookup1 dChineseNums p0).getD 1 * 10 else 10
      | none => 10
    let r2 := match parts.tail.head? with
      | some p1 => if p1 ≠ [] then (lookup1 dChineseNums p1).getD 0 else 0
      | none => 0
    let r := r1 + r2
    if 0 < r then r else 1
  else
    let r := cs.foldl (fun a c => match dChineseNums c with
      | some v => a * 10 + v
      | none => a) 0
    if 0 < r then r else 1

/-- Text-level outcome of `DateParser.parse`'s rule chain (all string
matching, no calendar arithmetic). -/
inductive DateSpec where
  | todaySpec : DateSpec
  | shift : ℤ → DateSpec
  | daysAgo : ℕ → DateSpec
  | weekSpec : ℤ → ℕ → DateSpec
  | lastMonthDay : ℕ → DateSpec
  | thisMonthDay : ℕ → DateSpec
  | tailSpec : Option (ℕ × ℕ) → Option (ℕ × ℕ × ℕ) → DateSpec
  deriving DecidableEq

/-- `(上|這|下)週([一二三四五六日天])` scanner. -/
def searchWeek : List Char → Option (Char × Char)
  | a :: b :: c :: rest =>
    if (a = '上' ∨ a = '這' ∨ a = '下') ∧ b = '週' ∧ (weekdayMap c).isSome
    then some (a, c)
    else searchWeek (b :: c :: rest)
  | _ => none

/-- Separator class `[/\-]` of the `M/D` pattern. -/
def isMdSep (c : Char) : Bool := c = '/' ∨ c = '-'

/-- Day capture `(\d{1,2})` at the head (greedy). -/
def day12 (c : Char) : List Char → ℕ
  | d :: _ => if isDig d then digVal c * 10 + digVal d else digVal c
  | [] => digVal c

/-- Try `(\d{1,2})[/\-](\d{1,2})` at the head of the text. -/
def probeMD : List Char → Option (ℕ × ℕ)
  | c0 :: c1 :: rest =>
    if isDig c0 then
      if isDig c1 then
        match rest with
        | c2 :: c3 :: rest2 =>
          if isMdSep c2 ∧ isDig c3 then
            some (digVal c0 * 10 + digVal c1, day12 c3 rest2)
          else none
        | _ => none
      else if isMdSep c1 then
        match rest with
        | c2 :: rest2 =>
          if isDig c2 then some (digVal c0, day12 c2 rest2) else none
        | [] => none
      else none
    else none
  | _ => none

def searchMD : List Char → Option (ℕ × ℕ)
  | [] => none
  | c :: cs =>
    match probeMD (c :: cs) with
    | some md => some md
    | none => searchMD cs

/-- Year separator `[年/\-]` and month separator `[月/\-]`. -/
def isYSep (c : Char) : Bool := c = '年' ∨ c = '/' ∨ c = '-'

def isMSep (c : Char) : Bool := c = '月' ∨ c = '/' ∨ c = '-'

/-- Try `(\d{4})[年/\-](\d{1,2})[月/\-](\d{1,2})[日]?` at the head. -/
def probeYMD : List Char → Option (ℕ × ℕ × ℕ)
  | c0 :: c1 :: c2 :: c3 :: c4 :: rest =>
    if isDig c0 ∧ isDig c1 ∧ isDig c2 ∧ isDig c3 ∧ isYSep c4 then
      let y := digVal c0 * 1000 + digVal c1 * 100 + digVal c2 * 10 + digVal c3
      match rest with
      | m0 :: m1 :: m2 :: rest2 =>
        if isDig m0 ∧ isDig m1 ∧ isMSep m2 then
          match rest2 with
          | d0 :: rest3 =>
            if isDig d0 then some (y, digVal m0 * 10 + digVal m1, day12 d0 rest3)
            else none
          | [] => none
        else if isDig m0 ∧ isMSep m1 then
          if isDig m2 then some (y, digVal m0, day12 m2 rest2) else none
        else none
      | m0 :: m1 :: rest2 =>
        if isDig m0 ∧ isMSep m1 then
          match rest2 with
          | d0 :: rest3 =>
            if isDig d0 then some (y, digVal m0, day12 d0 rest3) else none
          | [] => none
        else none
      | _ => none
    else none
  | _ => none

def searchYMD : List Char → Option (ℕ × ℕ × ℕ)
  | [] => none
  | c :: cs =>
    match probeYMD (c :: cs) with
    | some r => some r
    | none => searchYMD cs

/-- The rule chain of `DateParser.parse` at the text level, in source
order.  (Note the source checks `前天` before `大前天`, so the latter
branch is unreachable for texts containing `大前天`.) -/
def matchDateText (cs : List Char) : DateSpec :=
  if hasSub "今天".toList cs ∨ hasSub "今日".toList cs then .todaySpec
  else if hasSub "昨天".toList cs ∨ hasSub "昨日".toList cs then .shift (-1)
  else if hasSub "前天".toList cs then .shift (-2)
  else if hasSub "大前天".toList cs then .shift (-3)
  else if hasSub "明天".toList cs ∨ hasSub "明日".toList cs then .shift 1
  else match searchAltRun (fun c => isDig c) dNumClass
      (fun t => leadsWith "天前".toList t) cs with
  | some run => .daysAgo (dParseChineseNumber run)
  | none =>
  match searchWeek cs with
  | some (w, d) => .weekSpec
      (if w = '上' then -1 else if w = '這' then 0 else 1)
      ((weekdayMap d).getD 0)
  | none =>
  match searchLitRun "上個月".toList (fun c => isDig c) cs with
  | some run => .lastMonthDay (digitsVal run)
  | none =>
  match searchRunNoWs (fun c => isDig c)
      (fun t => match t with | c :: _ => c = '號' ∨ c = '日' | [] => false) cs with
  | some run => .thisMonthDay (digitsVal run)
  | none => .tailSpec (searchMD cs) (searchYMD cs)

/-- Calendar arithmetic of `DateParser.parse` for a matched rule;
`Except.error` is Python's uncaught `OverflowError`. -/
def applyDateSpec (s : DateSpec) (o : ℕ) : Except Unit (Option ℕ) :=
  match s with
  | .todaySpec => .ok (some o)
  | .shift z => (addDaysZ o z).map some
  | .daysAgo n => (addDaysZ o (-(n : ℤ))).map some
  | .weekSpec off wd =>
    (addDaysZ o ((wd : ℤ) - (pyWeekday o : ℤ) + 7 * off)).map some
  | .lastMonthDay n =>
    let first := firstOfMonth o
    if 2 ≤ first then
      let last := first - 1
      match replaceDay last n with
      | .ok r => .ok (some r)
      | .error _ => .ok (some last)
    else .error ()
  | .thisMonthDay n =>
    match replaceDay o n with
    | .ok r => .ok (some r)
    | .error _ => .ok (some o)
  | .tailSpec md full =>
    let tryFull : Except Unit (Option ℕ) :=
      match full with
      | some (y, m, d) =>
        if validYMD y m d then .ok (some (mkDate y m d)) else .ok none
      | none => .ok none
    match md with
    | some (m, d) =>
      if validYMD (yearOf o) m d then .ok (some (mkDate (yearOf o) m d))
      else tryFull
    | none => tryFull

/-- `DateParser.parse(text)` with `date.today()` passed as the reference
ordinal `o`. -/
def dateParse (text : List Char) (o : ℕ) : Except Unit (Option ℕ) :=
  applyDateSpec (matchDateText (pyStrip text)) o

/-! ## NLPParser (`backend/services/nlp_parser.py`) -/

namespace NLP

/-- `NLPParser.CATEGORY_KEYWORDS` (insertion order preserved). -/
def CATEGORY_KEYWORDS : List (String × List String) :=
  [("餐飲", ["吃", "餐", "飯", "午餐", "晚餐", "早餐", "宵夜", "飲料", "咖啡", "奶茶",
             "便當", "麵", "火鍋", "燒烤", "外食", "食", "喝", "零食", "點心", "蛋糕"]),
   ("交通", ["車", "捷運", "公車", "uber", "計程車", "高鐵", "火車", "機票", "加油",
             "停車", "通勤", "騎", "搭", "坐車", "交通"]),
   ("娛樂", ["電影", "遊戲", "KTV", "唱歌", "玩", "門票", "旅遊", "遊", "看展",
             "演唱會", "娛樂", "訂閱", "Netflix", "Spotify"]),
   ("購物", ["買", "購", "衣服", "鞋", "包", "3C", "電器", "手機", "電腦",
             "網購", "蝦皮", "淘寶", "百貨", "超市", "便利商店", "全聯"]),
   ("醫療", ["醫", "藥", "看診", "掛號", "健檢", "牙", "眼科", "診所", "醫院"]),
   ("居住", ["房租", "水電", "電費", "水費", "瓦斯", "管理費", "網路", "cable",
             "租金", "房貸", "維修"]),
   ("教育", ["書", "課", "學費", "補習", "教材", "文具", "考試", "證照", "線上課程"]),
   ("薪資", ["薪", "薪水", "工資", "發薪", "月薪", "獎金", "年終"]),
   ("投資", ["股", "基金", "利息", "股利", "配息", "投資收益"]),
   ("其他收入", ["收入", "入帳", "轉帳收入", "紅包", "禮金", "中獎"])]

/-- `NLPParser.INCOME_CATEGORIES`. -/
def INCOME_CATEGORIES : List String := ["薪資", "投資", "其他收入"]

/-- `NLPParser.CHINESE_NUMS` (includes the magnitudes 十/百/千/萬). -/
def nChineseNums (c : Char) : Option ℕ :=
  if c = '零' then some 0 else if c = '一' then some 1 else
  if c = '二' then some 2 else if c = '三' then some 3 else
  if c = '四' then some 4 else if c = '五' then some 5 else
  if c = '六' then some 6 else if c = '七' then some 7 else
  if c = '八' then some 8 else if c = '九' then some 9 else
  if c = '十' then some 10 else if c = '百' then some 100 else
  if c = '千' then some 1000 else if c = '萬' then some 10000 else
  if c = '兩' then some 2 else if c = '两' then some 2 else none

/-- `NLPParser._chinese_to_number`: accumulator `result` plus running
`temp`, exactly as in the source loop. -/
def chineseToNumber (cs : List Char) : ℕ :=
  let st := cs.foldl (fun (st : ℕ × ℕ) c =>
    match nChineseNums c with
    | none => st
    | some num =>
      if 10 ≤ num then
        let t := (if st.2 = 0 then 1 else st.2) * num
        if 10000 ≤ num then (st.1 + t, 0) else (st.1, t)
      else
        (st.1, if 10 ≤ st.2 then st.2 * 10 + num else num)) (0, 0)
  st.1 + st.2

/-- Character class `[零一二三四五六七八九十百千萬兩两]` of
`_extract_chinese_amount`. -/
def amtClass (c : Char) : Bool := (nChineseNums c).isSome

/-- Currency unit class `[元塊錢]`. -/
def isCurrency (c : Char) : Bool := c = '元' ∨ c = '塊' ∨ c = '錢'

/-- Parse `\d+(?:\.\d+)?` at the head of the text (greedy); returns the
value and the remaining text. -/
def parseNum (cs : List Char) : Option (ℚ × List Char) :=
  let r := takeRun (fun c => isDig c) cs
  if r.1 = [] then none
  else
    match r.2 with
    | '.' :: r2 =>
      let f := takeRun (fun c => isDig c) r2
      if f.1 = [] then some ((digitsVal r.1 : ℚ), r.2)
      else some ((digitsVal r.1 : ℚ) + (digitsVal f.1 : ℚ) / (10 : ℚ) ^ f.1.length, f.2)
    | _ => some ((digitsVal r.1 : ℚ), r.2)

/-- `re.search(r'(\d+(?:\.\d+)?)\s*[元塊錢]', text)`. -/
def searchP1 : List Char → Option ℚ
  | [] => none
  | c :: cs =>
    match parseNum (c :: cs) with
    | some (v, rest) =>
      match rest.dropWhile (fun x => isSpc x) with
      | r :: _ => if isCurrency r then some v else searchP1 cs
      | [] => searchP1 cs
    | none => searchP1 cs

/-- `re.search(r'\$\s*(\d+(?:\.\d+)?)', text)`. -/
def searchP2 : List Char → Option ℚ
  | [] => none
  | c :: cs =>
    if c = '$' then
      match parseNum (cs.dropWhile (fun x => isSpc x)) with
      | some (v, _) => some v
      | none => searchP2 cs
    else searchP2 cs

/-- `re.search(r'NT\$?\s*(\d+(?:\.\d+)?)', text, re.IGNORECASE)`. -/
def searchP3 : List Char → Option ℚ
  | a :: b :: cs =>
    if (a = 'N' ∨ a = 'n') ∧ (b = 'T' ∨ b = 't') then
      let r0 := match cs with
        | '$' :: t => t
        | t => t
      match parseNum (r0.dropWhile (fun x => isSpc x)) with
      | some (v, _) => some v
      | none => searchP3 (b :: cs)
    else searchP3 (b :: cs)
  | _ => none

/-- `re.search(r'(\d+(?:\.\d+)?)\s*(?:元|塊|錢|$)', text)` — the trailing
`$` of the alternation is the end-of-string anchor. -/
def searchP4 : List Char → Option ℚ
  | [] => none
  | c :: cs =>
    match parseNum (c :: cs) with
    | some (v, rest) =>
      match rest.dropWhile (fun x => isSpc x) with
      | r :: _ => if isCurrency r then some v else searchP4 cs
      | [] => some v
    | none => searchP4 cs

/-- `NLPParser._extract_chinese_amount`: the captured Chinese-numeral run
of `([零一二三四五六七八九十百千萬兩两]+)\s*[元塊錢]`, converted;
`None` when the pattern does not occur. -/
def extractChineseAmount (cs : List Char) : Option ℚ :=
  match searchRunWs amtClass
      (fun t => match t with | r :: _ => isCurrency r | [] => false) cs with
  | some run => some ((chineseToNumber run : ℚ))
  | none => none

/-- First bare `(\d+(?:\.\d+)?)` anywhere in the text. -/
def searchBare : List Char → Option ℚ
  | [] => none
  | c :: cs =>
    match parseNum (c :: cs) with
    | some (v, _) => some v
    | none => searchBare cs

/-- `NLPParser._extract_amount`: the four explicit patterns in order, then
the Chinese-numeral pattern (skipped when its value is the falsy `0.0`),
then any bare number. -/
def extractAmount (cs : List Char) : Option ℚ :=
  match searchP1 cs with
  | some v => some v
  | none =>
  match searchP2 cs with
  | some v => some v
  | none =>
  match searchP3 cs with
  | some v => some v
  | none =>
  match searchP4 cs with
  | some v => some v
  | none =>
  match extractChineseAmount cs with
  | some v => if v ≠ 0 then some v else searchBare cs
  | none => searchBare cs

/-- Score of one word against one category's keyword list:
`+1` for each keyword with `keyword in word or word in keyword`. -/
def wordScore (keywords : List String) (w : String) : ℕ :=
  keywords.foldl (fun a kw =>
    if hasSub kw.toList w.toList ∨ hasSub w.toList kw.toList then a + 1 else a) 0

/-- Score of a category over the segmented words. -/
def categoryScore (keywords : List String) (words : List String) : ℕ :=
  words.foldl (fun a w => a + wordScore keywords w) 0

/-- `NLPParser._extract_category`.  The jieba segmentation is the injected
`segment` interface of spec §4.3/§9: the caller supplies the token list
`words = jieba.cut(text)`.  `max(scores, key=scores.get)` returns the
first-inserted key of maximal score among categories with positive score. -/
def extractCategory (words : List String) : Option String :=
  (CATEGORY_KEYWORDS.foldl (fun (best : Option (String × ℕ)) p =>
    let s := categoryScore p.2 words
    if 0 < s then
      match best with
      | some (_, bs) => if bs < s then some (p.1, s) else best
      | none => some (p.1, s)
    else best) none).map Prod.fst

/-- Deletion of one amount-pattern occurrence at the head of the text for
`_clean_description`'s `re.sub(r'\d+(?:\.\d+)?\s*[元塊錢]', '', text)`:
returns the matched length. -/
def matchLenAmtCur (cs : List Char) : Option ℕ :=
  let r := takeRun (fun c => isDig c) cs
  if r.1 = [] then none
  else
    let (numLen, rest) :=
      match r.2 with
      | '.' :: r2 =>
        let f := takeRun (fun c => isDig c) r2
        if f.1 = [] then (r.1.length, r.2) else (r.1.length + 1 + f.1.length, f.2)
      | _ => (r.1.length, r.2)
    let sp := takeRun (fun c => isSpc c) rest
    match sp.2 with
    | c :: _ => if isCurrency c then some (numLen + sp.1.length + 1) else none
    | [] => none

/-- `re.sub(r'\$\s*\d+(?:\.\d+)?', '', text)` at the head. -/
def matchLenDollar (cs : List Char) : Option ℕ :=
  match cs with
  | '$' :: rest =>
    let sp := takeRun (fun c => isSpc c) rest
    let r := takeRun (fun c => isDig c) sp.2
    if r.1 = [] then none
    else
      match r.2 with
      | '.' :: r2 =>
        let f := takeRun (fun c => isDig c) r2
        if f.1 = [] then some (1 + sp.1.length + r.1.length)
        else some (1 + sp.1.length + r.1.length + 1 + f.1.length)
      | _ => some (1 + sp.1.length + r.1.length)
  | _ => none

/-- `re.sub(r'NT\$?\s*\d+(?:\.\d+)?', '', text, flags=re.IGNORECASE)` at
the head. -/
def matchLenNT (cs : List Char) : Option ℕ :=
  match cs with
  | a :: b :: rest =>
    if (a = 'N' ∨ a = 'n') ∧ (b = 'T' ∨ b = 't') then
      let (dLen, r0) := match rest with
        | '$' :: t => (1, t)
        | t => (0, t)
      let sp := takeRun (fun c => isSpc c) r0
      let r := takeRun (fun c => isDig c) sp.2
      if r.1 = [] then none
      else
        match r.2 with
        | '.' :: r2 =>
          let f := takeRun (fun c => isDig c) r2
          if f.1 = [] then some (2 + dLen + sp.1.length + r.1.length)
          else some (2 + dLen + sp.1.length + r.1.length + 1 + f.1.length)
        | _ => some (2 + dLen + sp.1.length + r.1.length)
    else none
  | _ => none

/-- `re.sub(pat, '', text)`: delete every leftmost non-overlapping match,
where `matchLen` reports a match length at the head.  `fuel` bounds the
recursion (a match always has positive length for the patterns used). -/
def subAllAux (matchLen : List Char → Option ℕ) : ℕ → List Char → List Char
  | 0, cs => cs
  | _ + 1, [] => []
  | fuel + 1, c :: cs =>
    match matchLen (c :: cs) with
    | some n => subAllAux matchLen fuel (List.drop (n - 1) cs)
    | none => c :: subAllAux matchLen fuel cs

def subAll (matchLen : List Char → Option ℕ) (cs : List Char) : List Char :=
  subAllAux matchLen cs.length cs

/-- `NLPParser._clean_description`. -/
def cleanDescription (text : List Char) : List Char :=
  let t1 := subAll matchLenAmtCur text
  let t2 := subAll matchLenDollar t1
  let t3 := subAll matchLenNT t2
  let kws : List String :=
    ["今天", "昨天", "前天", "今日", "昨日", "上週", "這週", "下週", "上個月", "這個月"]
  let t4 := kws.foldl (fun t kw => delAll kw.toList t) t3
  pyStrip (List.intercalate [' '] (pySplitWs t4))

/-- `NLPParser._parse_chinese_number` (the query-side numeral parser: a
digit string, a single character from 一..十, or the default 3). -/
def nParseChineseNumber (cs : List Char) : ℕ :=
  if cs ≠ [] ∧ cs.all (fun c => isDig c) then digitsVal cs
  else
    match cs with
    | [c] =>
      if c = '一' then 1 else if c = '二' then 2 else if c = '三' then 3 else
      if c = '四' then 4 else if c = '五' then 5 else if c = '六' then 6 else
      if c = '七' then 7 else if c = '八' then 8 else if c = '九' then 9 else
      if c = '十' then 10 else 1
    | _ => 3

/-- The record dictionary returned by `NLPParser.parse`. -/
structure PRecord where
  amount : Option ℚ
  typ : String
  category : String
  date : ℕ
  description : List Char
  confidence : ℚ
  deriving DecidableEq, Repr

/-- `NLPParser.parse(text)`, with `date.today()` as the ordinal `today`
and the jieba segmentation of `text` as `words`.  The uncaught
`OverflowError` of `DateParser.parse` propagates. -/
def parse (text : List Char) (today : ℕ) (words : List String) :
    Except Unit PRecord := do
  let amount := extractAmount text
  -- `if amount:` — Python truthiness: both `None` and `0.0` fail.
  let amountOk : Bool := match amount with
    | some v => v ≠ 0
    | none => false
  let parsedDate ← dateParse text today
  let dateOk := parsedDate.isSome
  let category := extractCategory words
  let catOk := category.isSome
  return {
    amount := if amountOk then amount else none
    typ := match category with
      | some c => if INCOME_CATEGORIES.contains c then "income" else "expense"
      | none => "expense"
    category := match category with
      | some c => c
      | none => if hasSub "收入".toList text then "其他收入" else "其他"
    date := match parsedDate with
      | some d => d
      | none => today
    description := cleanDescription text
    confidence :=
      (if amountOk then (4 : ℚ) / 10 else 0) +
      (if dateOk then (1 : ℚ) / 10 else 0) +
      (if catOk then (4 : ℚ) / 10 else (1 : ℚ) / 10)
  }

/-- The query dictionary returned by `NLPParser.parse_query`. -/
structure PQuery where
  queryType : String
  category : Option String
  period : String
  startDate : ℕ
  endDate : ℕ
  chartType : Option String
  deriving DecidableEq, Repr

/-- One step of the `近N個月` walk-back loop:
`start = (start - timedelta(days=1)).replace(day=1)`. -/
def monthBackStep (s : ℕ) : Except Unit ℕ :=
  if 2 ≤ s then .ok (firstOfMonth (s - 1)) else .error ()

/-- `for _ in range(months - 1): …` of `parse_query`. -/
def monthBackLoop : ℕ → ℕ → Except Unit ℕ
  | 0, s => .ok s
  | k + 1, s => do monthBackLoop k (← monthBackStep s)

/-- The `近?(\d+|[一二三四五六七八九十]+)\s*個?月` match of `parse_query`
(the optional `近` and `個` do not affect the captured group). -/
def searchNMonths (cs : List Char) : Option (List Char) :=
  searchAltRun (fun c => isDig c) dNumClass
    (fun t => match t with
      | '個' :: '月' :: _ => true
      | '月' :: _ => true
      | _ => false) cs

/-- The time-range `if/elif` chain of `parse_query` (period, start, end);
the last-month branch subtracts a day from the first of the month, which
raises for a reference date in the first month of year 1. -/
def queryRange (text : List Char) (today : ℕ) : Except Unit (String × ℕ × ℕ) :=
  if hasSub "今天".toList text ∨ hasSub "今日".toList text then
    .ok ("day", today, today)
  else if hasSub "這週".toList text ∨ hasSub "本週".toList text then
    (addDaysZ today (-(pyWeekday today : ℤ))).map (fun s => ("week", s, today))
  else if hasSub "上個月".toList text ∨ hasSub "上月".toList text then
    if 2 ≤ firstOfMonth today then
      .ok ("month", firstOfMonth (firstOfMonth today - 1), firstOfMonth today - 1)
    else .error ()
  else if hasSub "這個月".toList text ∨ hasSub "本月".toList text then
    .ok ("month", firstOfMonth today, today)
  else if hasSub "今年".toList text then
    .ok ("year", firstOfYear today, today)
  else
    .ok ("month", firstOfMonth today, today)

/-- The `近N個月` start-date override of `parse_query` (keeps `s0` when
the pattern does not occur). -/
def queryStart (text : List Char) (today : ℕ) (s0 : ℕ) : Except Unit ℕ :=
  match searchNMonths text with
  | some run => monthBackLoop (nParseChineseNumber run - 1) (firstOfMonth today)
  | none => .ok s0

/-- `NLPParser.parse_query(text)` with `date.today()` as `today`. -/
def parseQuery (text : List Char) (today : ℕ) : Except Unit PQuery := do
  let (period, s0, e0) ← queryRange text today
  let s1 ← queryStart text today s0
  -- category: first category name occurring verbatim
  let cat := (CATEGORY_KEYWORDS.find? (fun p => hasSub p.1.toList text)).map Prod.fst
  let qt0 := if cat.isSome then "category" else "summary"
  -- chart type
  let chart :=
    if hasSub "圓餅圖".toList text ∨ hasSub "比例".toList text then some "pie"
    else if hasSub "折線圖".toList text ∨ hasSub "趨勢".toList text then some "line"
    else if hasSub "長條圖".toList text ∨ hasSub "柱狀圖".toList text then some "bar"
    else none
  -- query type override
  let qt :=
    if hasSub "趨勢".toList text ∨ hasSub "變化".toList text then "trend"
    else if hasSub "比較".toList text ∨ hasSub "對比".toList text then "compare"
    else qt0
  return {
    queryType := qt
    category := cat
    period := period
    startDate := s1
    endDate := e0
    chartType := chart
  }

end NLP

/-! ## Intent detection (`backend/routers/chat.py`, `_detect_intent`) -/

def queryKeywords : List String :=
  ["花了多少", "多少錢", "查詢", "統計", "報告", "報表", "趨勢", "分析圖"]

def analysisKeywords : List String :=
  ["是不是", "應該", "建議", "幫我", "為什麼", "怎麼", "如何"]

/-- `_detect_intent`. -/
def detectIntent (text : List Char) : String :=
  if queryKeywords.any (fun kw => hasSub kw.toList text) then "query"
  else if analysisKeywords.any (fun kw => hasSub kw.toList text) then "analysis"
  else if text.any (fun c => isDig c) then "record"
  else "analysis"

/-! ## Claim C1 -/

/-- **C1**: the Chinese numeral converter on the four specification
examples.  `toNumber("五百") = 500` and `toNumber("一萬") = 10000` hold,
but `toNumber("兩千三百") = 2000300` (not 2300) and
`toNumber("三十五") = 305` (not 35): after a magnitude character has set
`temp ≥ 10`, a following unit digit triggers the positional fold
`temp = temp*10 + digit` of `NLPParser._chinese_to_number`, multiplying
the whole pending segment by ten.  The repository's other Chinese-numeral
parser, `DateParser._parse_chinese_number`, does map 三十五 to 35. -/
theorem chineseToNumber_spec_examples :
    NLP.chineseToNumber "五百".toList = 500 ∧
    NLP.chineseToNumber "一萬".toList = 10000 ∧
    NLP.chineseToNumber "兩千三百".toList = 2000300 ∧
    NLP.chineseToNumber "三十五".toList = 305 ∧
    dParseChineseNumber "三十五".toList = 35 := by
  decide

/-! ## Claim C2 -/

/-- **C2**, counterexample: on `"午餐 120 元"` the confidence is
`0.8`, not the claimed `0.9`: `DateParser.parse` finds no date in this
text, so the `+0.1` date signal does not fire. -/
theorem parse_lunch_confidence_cex :
    (NLP.parse "午餐 120 元".toList (mkDate 2024 3 15)
        ["午餐", " ", "120", " ", "元"]).map NLP.PRecord.confidence =
      .ok (8 / 10) ∧ ((8 : ℚ) / 10 ≠ 9 / 10) := by
  constructor
  · have hm : dateParse "午餐 120 元".toList (mkDate 2024 3 15) = .ok none := by
      have h1 : matchDateText (pyStrip "午餐 120 元".toList) = .tailSpec none none := by
        decide
      unfold dateParse
      rw [h1]
      rfl
    have hamt : NLP.extractAmount "午餐 120 元".toList = some 120 := by decide
    have hcat : NLP.extractCategory ["午餐", " ", "120", " ", "元"] = some "餐飲" := by
      decide
    unfold NLP.parse
    rw [hm, hamt, hcat]
    show Except.ok _ = _
    simp only [Except.ok.injEq]
    norm_num
  · norm_num

/-- **C2**, amended: `parseRecord("午餐 120 元", today)` — with the
jieba segmentation `[午餐, ␣, 120, ␣, 元]` supplied through the injected
`segment` interface — returns amount `120.0`, category `"餐飲"`, kind
Expense, date `today`, description `"午餐"`, and confidence
`0.8 = 0.4 (amount) + 0.4 (category)`: the date sub-signal contributes
nothing because the date resolver finds no date in this text. -/
theorem parse_lunch_record (o : ℕ) :
    NLP.parse "午餐 120 元".toList o ["午餐", " ", "120", " ", "元"] =
      .ok { amount := some 120, typ := "expense", category := "餐飲", date := o,
            description := "午餐".toList, confidence := 8 / 10 } := by
  have hm : dateParse "午餐 120 元".toList o = .ok none := by
    have h1 : matchDateText (pyStrip "午餐 120 元".toList) = .tailSpec none none := by
      decide
    unfold dateParse
    rw [h1]
    rfl
  have hamt : NLP.extractAmount "午餐 120 元".toList = some 120 := by decide
  have hcat : NLP.extractCategory ["午餐", " ", "120", " ", "元"] = some "餐飲" := by
    decide
  unfold NLP.parse
  rw [hm, hamt, hcat]
  show Except.ok _ = _
  simp only [Except.ok.injEq, NLP.PRecord.mk.injEq]
  refine ⟨?_, ?_, ?_, ?_, ?_, ?_⟩ <;> first
    | rfl
    | trivial
    | norm_num

/-! ## Claim C4 -/

/-- For every day number 1..31 written in Arabic digits, the text `"N號"`
is matched by the current-month rule. -/
theorem matchDateText_dayNum :
    ∀ N ∈ Finset.Icc (1 : ℕ) 31,
      matchDateText (pyStrip ((Nat.repr N).toList ++ "號".toList)) = .thisMonthDay N := by
  decide

/-- **C4**, amended: when day `N` (1..31) exceeds the length of today's
month, the current-month rule `"N號"` returns **today itself** (the
`except ValueError: return today` branch), not the last day of the
current month — the clamp-to-month-end policy applies only to the
previous-month rule.  No exception escapes. -/
theorem dayNum_overflow_returns_today (today N : ℕ) (h1 : 1 ≤ N) (h2 : N ≤ 31)
    (h3 : daysInMonth (yearOf today) (monthOf today) < N) :
    dateParse ((Nat.repr N).toList ++ "號".toList) today = .ok (some today) := by
  unfold dateParse
  rw [matchDateText_dayNum N (by simp only [Finset.mem_Icc]; omega)]
  show (match replaceDay today N with
    | .ok r => Except.ok (some r)
    | .error _ => Except.ok (some today)) = Except.ok (some today)
  unfold replaceDay
  rw [if_neg (by omega)]

/-- **C4**, witness for the amended theorem: 31 exceeds February 2024's
29 days and `"31號"` resolves to the reference date 2024-02-15. -/
theorem dayNum_overflow_witness :
    1 ≤ 31 ∧ (31 : ℕ) ≤ 31 ∧
    daysInMonth (yearOf (mkDate 2024 2 15)) (monthOf (mkDate 2024 2 15)) < 31 ∧
    dateParse ((Nat.repr 31).toList ++ "號".toList) (mkDate 2024 2 15) =
      .ok (some (mkDate 2024 2 15)) :=
  ⟨by decide, by decide, by decide,
    dayNum_overflow_returns_today (mkDate 2024 2 15) 31 (by decide) (by decide)
      (by decide)⟩

/-- **C4**, counterexample: with reference date 2024-02-15, `"31號"`
resolves to 2024-02-15 (the reference date), which is not the last day
2024-02-29 of the month that the claim requires. -/
theorem dayNum_overflow_cex :
    dateParse "31號".toList (mkDate 2024 2 15) = .ok (some (mkDate 2024 2 15)) ∧
    mkDate 2024 2 15 ≠ mkDate 2024 2 29 := by
  decide

/-! ## Claim C5 -/

/-- **C5**, counterexample: `"五百元123"` contains the Chinese run 五百
directly followed by 元 (value 500) and no Arabic digits attached to a
currency unit or to `$`/`NT$` (patterns 1–3 all fail), yet the extractor
returns 123: the fourth explicit pattern
`(\d+(?:\.\d+)?)\s*(?:元|塊|錢|$)` accepts the bare trailing digit run
via its end-of-string alternative, pre-empting the Chinese step. -/
theorem extractAmount_trailing_digits_cex :
    NLP.searchP1 "五百元123".toList = none ∧
    NLP.searchP2 "五百元123".toList = none ∧
    NLP.searchP3 "五百元123".toList = none ∧
    NLP.extractChineseAmount "五百元123".toList = some 500 ∧
    NLP.extractAmount "五百元123".toList = some 123 ∧
    ((123 : ℚ) ≠ 500) := by
  refine ⟨by decide, by decide, by decide, by decide, by decide, by norm_num⟩

/-- **C5**, amended: when none of the four explicit Arabic-digit patterns
matches (digits attached to a currency unit, to `$`/`NT$`, or — the
addition the counterexample forces — a digit run followed by optional
whitespace and then the end of the text), and the Chinese-numeral pattern
matches with a nonzero converted value `v`, the extractor returns `v`:
step (b) fires before the bare-digit fallback (c), even when bare digit
runs occur elsewhere in the text. -/
theorem extractAmount_chinese_before_bare (cs : List Char) (v : ℚ)
    (h1 : NLP.searchP1 cs = none) (h2 : NLP.searchP2 cs = none)
    (h3 : NLP.searchP3 cs = none) (h4 : NLP.searchP4 cs = none)
    (h5 : NLP.extractChineseAmount cs = some v) (h6 : v ≠ 0) :
    NLP.extractAmount cs = some v := by
  unfold NLP.extractAmount
  rw [h1, h2, h3, h4, h5]
  simp [h6]

/-- **C5**, witness: `"123去五百元"` has a bare digit run `123` (not at
the end of the text), and the extractor returns the Chinese value 500. -/
theorem extractAmount_chinese_before_bare_witness :
    NLP.extractAmount "123去五百元".toList = some 500 :=
  extractAmount_chinese_before_bare _ _ (by decide) (by decide) (by decide)
    (by decide) (by decide) (by norm_num)

/-! ## Claim C7 -/

/-- **C7**: `parseQuery("上個月餐飲花多少")` with reference date
2024-03-15 returns the prior month's bounds 2024-02-01 .. 2024-02-29
(leap-year February), category 餐飲, query kind `category` (and period
`month`, no chart hint). -/
theorem parseQuery_last_month_dining :
    NLP.parseQuery "上個月餐飲花多少".toList (mkDate 2024 3 15) =
      .ok ⟨"category", some "餐飲", "month", mkDate 2024 2 1, mkDate 2024 2 29, none⟩ := by
  decide

/-! ## Claim C10 -/

/-- **C10**: intent classification priority — any query keyword forces
`query` regardless of digits or analysis keywords; otherwise an analysis
keyword forces `analysis`; otherwise the result is `record` iff the text
contains a digit; and the two concrete examples of the specification. -/
theorem detectIntent_priority :
    (∀ t : List Char, queryKeywords.any (fun kw => hasSub kw.toList t) = true →
        detectIntent t = "query") ∧
    (∀ t : List Char, queryKeywords.any (fun kw => hasSub kw.toList t) = false →
        analysisKeywords.any (fun kw => hasSub kw.toList t) = true →
        detectIntent t = "analysis") ∧
    (∀ t : List Char, queryKeywords.any (fun kw => hasSub kw.toList t) = false →
        analysisKeywords.any (fun kw => hasSub kw.toList t) = false →
        (detectIntent t = "record" ↔ t.any (fun c => isDig c) = true)) ∧
    detectIntent "午餐120元".toList = "record" ∧
    detectIntent "這個月花了多少".toList = "query" := by
  refine ⟨?_, ?_, ?_, by decide, by decide⟩
  · intro t h
    unfold detectIntent
    rw [h]
    rfl
  · intro t h1 h2
    unfold detectIntent
    rw [h1, h2]
    rfl
  · intro t h1 h2
    unfold detectIntent
    rw [h1, h2]
    cases hd : t.any (fun c => isDig c) <;> decide

/-- **C10**, witness: the priority theorem applied at concrete inputs —
`"查詢123"` is `query` although it contains digits, `"建議"` is
`analysis`, and `"午餐120元"` is `record` iff it contains a digit. -/
theorem detectIntent_priority_witness :
    detectIntent "查詢123".toList = "query" ∧
    detectIntent "建議".toList = "analysis" ∧
    (detectIntent "午餐120元".toList = "record" ↔
      "午餐120元".toList.any (fun c => isDig c) = true) :=
  ⟨detectIntent_priority.1 _ (by decide),
   detectIntent_priority.2.1 _ (by decide) (by decide),
   detectIntent_priority.2.2.1 _ (by decide) (by decide)⟩

/-! ## Claim C6 -/

/-- **C6**, counterexample: on `"回收入庫300"` with a segmentation whose
tokens (回收, 入庫, 300) match no category keyword, the fallback sets the
category to 其他收入 — a member of the income partition, because the raw
text contains the substring 收入 — while the kind stays `expense`: the
fallback branch never updates `result["type"]`. -/
theorem income_fallback_cex :
    (NLP.parse "回收入庫300".toList (mkDate 2024 3 15)
        ["回收", "入庫", "300"]).map (fun r => (r.category, r.typ)) =
      .ok ("其他收入", "expense") ∧
    NLP.extractCategory ["回收", "入庫", "300"] = none ∧
    NLP.INCOME_CATEGORIES.contains "其他收入" = true := by
  refine ⟨by decide, by decide, by decide⟩

/-- **C6**, amended: the kind is Income **iff the category classifier
matched** a category of the income partition; when no category matches,
the kind is always Expense — even when the no-match fallback assigns the
income-partition name 其他收入 (raw text containing 收入). -/
theorem parse_income_iff (text : List Char) (today : ℕ) (words : List String)
    (r : NLP.PRecord) (h : NLP.parse text today words = .ok r) :
    (r.typ = "income" ↔
      ∃ c, NLP.extractCategory words = some c ∧
        NLP.INCOME_CATEGORIES.contains c = true) := by
  unfold NLP.parse at h
  cases hdp : dateParse text today with
  | error e => rw [hdp] at h; simp [Except.bind] at h
  | ok pd =>
    rw [hdp] at h
    simp only [Except.bind, Except.pure] at h
    obtain rfl := (Except.ok.inj h).symm
    cases hc : NLP.extractCategory words with
    | none =>
      show "expense" = "income" ↔ _
      simp
    | some c =>
      show (if NLP.INCOME_CATEGORIES.contains c = true
          then "income" else "expense") = "income" ↔ _
      by_cases hm : NLP.INCOME_CATEGORIES.contains c = true
      · rw [if_pos hm]
        exact iff_of_true rfl ⟨c, rfl, hm⟩
      · rw [if_neg hm]
        constructor
        · intro he
          exact absurd he (by decide)
        · rintro ⟨c2, hcc, hm2⟩
          rw [Option.some.inj hcc] at hm
          exact absurd hm2 hm

/-- **C6**, witness: the amended iff applied to `"薪水 500元"`
(segmentation 薪水/␣/500元), whose record has kind `income` with matched
income category 薪資. -/
theorem parse_income_iff_witness :
    (NLP.PRecord.typ
        { amount := some 500, typ := "income", category := "薪資",
          date := mkDate 2024 3 15, description := "薪水".toList,
          confidence := 8 / 10 } = "income" ↔
      ∃ c, NLP.extractCategory ["薪水", " ", "500元"] = some c ∧
        NLP.INCOME_CATEGORIES.contains c = true) :=
  parse_income_iff "薪水 500元".toList (mkDate 2024 3 15) ["薪水", " ", "500元"] _
    (by
      have hm : dateParse "薪水 500元".toList (mkDate 2024 3 15) = .ok none := by
        have h1 : matchDateText (pyStrip "薪水 500元".toList) = .tailSpec none none := by
          decide
        unfold dateParse
        rw [h1]
        rfl
      have hamt : NLP.extractAmount "薪水 500元".toList = some 500 := by decide
      have hcat : NLP.extractCategory ["薪水", " ", "500元"] = some "薪資" := by decide
      unfold NLP.parse
      rw [hm, hamt, hcat]
      show Except.ok _ = _
      simp only [Except.ok.injEq, NLP.PRecord.mk.injEq]
      refine ⟨?_, ?_, ?_, ?_, ?_, ?_⟩ <;> first
        | rfl
        | trivial
        | norm_num)

/-! ## Claim C8 -/

/-- Standard Chinese rendering of 1..31 (一 .. 三十一). -/
def cnUnit : ℕ → Char
  | 1 => '一'
  | 2 => '二'
  | 3 => '三'
  | 4 => '四'
  | 5 => '五'
  | 6 => '六'
  | 7 => '七'
  | 8 => '八'
  | 9 => '九'
  | _ => '零'

def chineseNumStr (n : ℕ) : List Char :=
  if n < 10 then [cnUnit n]
  else if n = 10 then ['十']
  else if n < 20 then ['十', cnUnit (n - 10)]
  else if n % 10 = 0 then [cnUnit (n / 10), '十']
  else [cnUnit (n / 10), '十', cnUnit (n % 10)]

/-- For every N in 1..31 in Arabic digits, `"N天前"` is matched by the
days-ago rule with value N. -/
theorem matchDateText_daysAgo_arabic :
    ∀ N ∈ Finset.Icc (1 : ℕ) 31,
      matchDateText (pyStrip ((Nat.repr N).toList ++ "天前".toList)) = .daysAgo N := by
  decide

/-- For every N in 1..31 in Chinese numerals, `"N天前"` is matched by the
days-ago rule with value N. -/
theorem matchDateText_daysAgo_chinese :
    ∀ N ∈ Finset.Icc (1 : ℕ) 31,
      matchDateText (pyStrip (chineseNumStr N ++ "天前".toList)) = .daysAgo N := by
  decide

/-- **C8**: for every reference ordinal `today` (beyond the first 31 days
of year 1, within Python's date range) and every N in 1..31, written in
Arabic digits or in Chinese numerals, `"N天前"` resolves to `today − N`
days (ordinal subtraction, hence with correct month/year rollover). -/
theorem daysAgo_resolves (today N : ℕ) (h1 : 1 ≤ N) (h2 : N ≤ 31)
    (h3 : 31 < today) (h4 : today ≤ maxOrd) :
    dateParse ((Nat.repr N).toList ++ "天前".toList) today = .ok (some (today - N)) ∧
    dateParse (chineseNumStr N ++ "天前".toList) today = .ok (some (today - N)) := by
  have key : applyDateSpec (.daysAgo N) today = .ok (some (today - N)) := by
    show (addDaysZ today (-(N : ℤ))).map some = _
    unfold addDaysZ
    rw [if_pos (by
      unfold maxOrd at h4 ⊢
      constructor <;> omega)]
    show Except.ok _ = _
    congr 1
    congr 1
    omega
  constructor
  · unfold dateParse
    rw [matchDateText_daysAgo_arabic N (by simp only [Finset.mem_Icc]; omega)]
    exact key
  · unfold dateParse
    rw [matchDateText_daysAgo_chinese N (by simp only [Finset.mem_Icc]; omega)]
    exact key

/-- **C8**, witness: with today = 2024-01-02, `"3天前"` and `"三天前"`
both resolve to 2023-12-30 — rollover across the month and year
boundary, the example of the specification. -/
theorem daysAgo_resolves_witness :
    dateParse "3天前".toList (mkDate 2024 1 2) = .ok (some (mkDate 2023 12 30)) ∧
    dateParse "三天前".toList (mkDate 2024 1 2) = .ok (some (mkDate 2023 12 30)) := by
  have h := daysAgo_resolves (mkDate 2024 1 2) 3 (by decide) (by decide) (by decide)
    (by decide)
  exact ⟨h.1.trans (by decide), h.2.trans (by decide)⟩

/-! ## Claim C3 -/

/-- Head-of-list digit test. -/
def headDig : List Char → Bool
  | [] => false
  | c :: _ => isDig c

theorem isDig_not_spc {c : Char} (h : isDig c = true) : isSpc c = false := by
  simp only [isDig, decide_eq_true_eq] at h
  simp only [isSpc, decide_eq_false_iff_not]
  rintro (rfl | rfl | rfl | rfl | rfl | rfl) <;> revert h <;> decide

theorem dropWhile_false (p : Char → Bool) :
    ∀ (l : List Char), (∀ c ∈ l, p c = false) → l.dropWhile p = l
  | [], _ => rfl
  | c :: cs, h => by
    rw [List.dropWhile_cons, h c (by simp)]
    simp

theorem pyStrip_eq_self (l : List Char) (h : ∀ c ∈ l, isSpc c = false) :
    pyStrip l = l := by
  unfold pyStrip
  rw [dropWhile_false _ l h,
    dropWhile_false _ l.reverse (fun c hc => h c (List.mem_reverse.mp hc)),
    List.reverse_reverse]

/-- A needle that starts with a non-digit cannot begin inside an all-digit
prefix. -/
theorem hasSub_digit_drop {p : List Char} (q : Char) (p2 : List Char)
    (hp : p = q :: p2) (hq : isDig q = false) :
    ∀ (ds t : List Char), (∀ c ∈ ds, isDig c = true) →
      hasSub p (ds ++ t) = hasSub p t := by
  intro ds
  induction ds with
  | nil => intro t _; rfl
  | cons c cs ih =>
    intro t hall
    have hc : isDig c = true := hall c (by simp)
    have hlw : leadsWith p (c :: (cs ++ t)) = false := by
      subst hp
      show (decide (q = c) && leadsWith p2 (cs ++ t)) = false
      have hne : q ≠ c := fun e => by
        rw [e] at hq
        rw [hq] at hc
        exact Bool.noConfusion hc
      simp [hne]
    show (leadsWith p (c :: (cs ++ t)) || hasSub p (cs ++ t)) = hasSub p t
    rw [hlw, ih t (fun x hx => hall x (by simp [hx]))]
    simp

theorem takeRun_digits (ds t : List Char) (hds : ∀ c ∈ ds, isDig c = true)
    (ht : headDig t = false) :
    takeRun (fun c => isDig c) (ds ++ t) = (ds, t) := by
  induction ds with
  | nil =>
    cases t with
    | nil => rfl
    | cons q t2 =>
      have : isDig q = false := ht
      simp [takeRun, this]
  | cons c cs ih =>
    have hc := hds c (by simp)
    simp [takeRun, hc, ih (fun x hx => hds x (by simp [hx]))]

/-- The alternation scanner fires at position 0 on an all-digit run whose
tail is accepted. -/
theorem searchAltRun_digits (tailOk : List Char → Bool) (d : Char) (ds t : List Char)
    (hall : ∀ c ∈ (d :: ds), isDig c = true) (ht : headDig t = false)
    (htok : tailOk (t.dropWhile (fun x => isSpc x)) = true) :
    searchAltRun (fun c => isDig c) dNumClass tailOk ((d :: ds) ++ t) = some (d :: ds) := by
  have hd := hall d (by simp)
  show searchAltRun _ _ _ (d :: (ds ++ t)) = _
  unfold searchAltRun
  rw [hd]
  simp only [if_true]
  rw [show d :: (ds ++ t) = (d :: ds) ++ t from rfl]
  rw [takeRun_digits (d :: ds) t hall ht]
  simp [htok]

theorem dParseChineseNumber_digits (ds : List Char) (h0 : ds ≠ [])
    (hall : ∀ c ∈ ds, isDig c = true) :
    dParseChineseNumber ds = digitsVal ds := by
  unfold dParseChineseNumber
  rw [if_pos ⟨h0, List.all_eq_true.mpr hall⟩]

/-- Any all-digit run followed by 天前 is matched by the days-ago rule. -/
theorem matchDateText_digits_daysAgo (d : Char) (ds : List Char)
    (hall : ∀ c ∈ (d :: ds), isDig c = true) :
    matchDateText ((d :: ds) ++ "天前".toList) = .daysAgo (digitsVal (d :: ds)) := by
  have e1 := hasSub_digit_drop (p := "今天".toList) '今' ['天'] rfl (by decide)
    (d :: ds) "天前".toList hall
  have e2 := hasSub_digit_drop (p := "今日".toList) '今' ['日'] rfl (by decide)
    (d :: ds) "天前".toList hall
  have e3 := hasSub_digit_drop (p := "昨天".toList) '昨' ['天'] rfl (by decide)
    (d :: ds) "天前".toList hall
  have e4 := hasSub_digit_drop (p := "昨日".toList) '昨' ['日'] rfl (by decide)
    (d :: ds) "天前".toList hall
  have e5 := hasSub_digit_drop (p := "前天".toList) '前' ['天'] rfl (by decide)
    (d :: ds) "天前".toList hall
  have e6 := hasSub_digit_drop (p := "大前天".toList) '大' "前天".toList rfl (by decide)
    (d :: ds) "天前".toList hall
  have e7 := hasSub_digit_drop (p := "明天".toList) '明' ['天'] rfl (by decide)
    (d :: ds) "天前".toList hall
  have e8 := hasSub_digit_drop (p := "明日".toList) '明' ['日'] rfl (by decide)
    (d :: ds) "天前".toList hall
  unfold matchDateText
  rw [if_neg (by simp only [e1, e2]; decide)]
  rw [if_neg (by simp only [e3, e4]; decide)]
  rw [if_neg (by simp only [e5]; decide)]
  rw [if_neg (by simp only [e6]; decide)]
  rw [if_neg (by simp only [e7, e8]; decide)]
  rw [searchAltRun_digits _ d ds _ hall (by decide) (by decide)]
  show DateSpec.daysAgo (dParseChineseNumber (d :: ds)) =
    DateSpec.daysAgo (digitsVal (d :: ds))
  rw [dParseChineseNumber_digits (d :: ds) (by simp) hall]

/-- **C3**, amended: resolution of `"N天前"` (N a nonempty digit string,
reference date within Python's range) is total exactly up to Python's
date range: it returns `today − N` when `N < ordinal(today)` and raises
`OverflowError` otherwise — so for arbitrarily large N the resolver (and
`parse`, which calls it without a handler) *does* raise, refuting the
unconditional total-function claim; no other failure is possible on these
inputs. -/
theorem daysAgo_total_behavior (today : ℕ) (ds : List Char) (h0 : ds ≠ [])
    (hall : ∀ c ∈ ds, isDig c = true) (hmax : today ≤ maxOrd) :
    dateParse (ds ++ "天前".toList) today =
      if digitsVal ds < today then .ok (some (today - digitsVal ds)) else .error () := by
  obtain ⟨d, ds2, rfl⟩ := List.exists_cons_of_ne_nil h0
  unfold dateParse
  rw [pyStrip_eq_self _ (by
    intro c hc
    rcases List.mem_append.mp hc with h | h
    · exact isDig_not_spc (hall c h)
    · fin_cases h <;> decide)]
  rw [matchDateText_digits_daysAgo d ds2 hall]
  show (addDaysZ today (-(digitsVal (d :: ds2) : ℤ))).map some = _
  unfold addDaysZ
  by_cases hlt : digitsVal (d :: ds2) < today
  · rw [if_pos (by unfold maxOrd at hmax ⊢; constructor <;> omega), if_pos hlt]
    show Except.ok _ = _
    congr 1
    congr 1
    omega
  · rw [if_neg (by omega), if_neg hlt]
    rfl

/-- **C3**, witness: with reference date 2024-03-15, `"3天前"` resolves
to 2024-03-12 while `"1000000天前"` raises. -/
theorem daysAgo_total_behavior_witness :
    dateParse ("3".toList ++ "天前".toList) (mkDate 2024 3 15) =
      .ok (some (mkDate 2024 3 12)) ∧
    dateParse ("1000000".toList ++ "天前".toList) (mkDate 2024 3 15) = .error () := by
  have h1 := daysAgo_total_behavior (mkDate 2024 3 15) "3".toList (by decide)
    (by decide) (by decide)
  have h2 := daysAgo_total_behavior (mkDate 2024 3 15) "1000000".toList (by decide)
    (by decide) (by decide)
  rw [if_pos (by decide)] at h1
  rw [if_neg (by decide)] at h2
  exact ⟨h1.trans (by decide), h2⟩

/-- **C3**, counterexample: `"1000000天前"` makes the date resolver —
and `NLPParser.parse`, which calls it with no exception handler — raise
`OverflowError` (the result would fall before `date.min`), so parsing is
not exception-free for arbitrarily large N. -/
theorem parse_overflow_cex :
    dateParse "1000000天前".toList (mkDate 2024 3 15) = .error () ∧
    NLP.parse "1000000天前".toList (mkDate 2024 3 15) [] = .error () := by
  refine ⟨by decide, by decide⟩

/-! ## Claim C9 -/

theorem monthBackLoop_le (k : ℕ) : ∀ s r, NLP.monthBackLoop k s = .ok r → r ≤ s := by
  induction k with
  | zero =>
    intro s r h
    exact le_of_eq (Except.ok.inj h).symm
  | succ n ih =>
    intro s r h
    unfold NLP.monthBackLoop NLP.monthBackStep at h
    by_cases h2 : 2 ≤ s
    · rw [if_pos h2] at h
      simp only [bind, Except.bind] at h
      have := ih _ _ h
      calc r ≤ firstOfMonth (s - 1) := this
        _ ≤ s - 1 := Nat.sub_le _ _
        _ ≤ s := Nat.sub_le _ _
    · rw [if_neg h2] at h
      simp [bind, Except.bind] at h

theorem addDaysZ_nonpos_le (o : ℕ) (z : ℤ) (hz : z ≤ 0) (r : ℕ)
    (h : addDaysZ o z = .ok r) : r ≤ o := by
  unfold addDaysZ at h
  split at h
  · have := Except.ok.inj h
    omega
  · exact absurd h (by simp)

/-- The `parse_query` time-range chain resolves to the last-month branch:
neither a today nor a this-week phrase occurs, and a last-month phrase
does. -/
def lastMonthBranchTaken (text : List Char) : Bool :=
  (!(hasSub "今天".toList text || hasSub "今日".toList text)) &&
  (!(hasSub "這週".toList text || hasSub "本週".toList text)) &&
  (hasSub "上個月".toList text || hasSub "上月".toList text)

/-- Every branch of the time-range chain yields `start ≤ end`, and the
end date is the reference date except in the last-month branch. -/
theorem queryRange_bound (text : List Char) (today : ℕ) (p : String) (s0 e0 : ℕ)
    (h : NLP.queryRange text today = .ok (p, s0, e0)) :
    s0 ≤ e0 ∧ (e0 = today ∨ lastMonthBranchTaken text = true) := by
  unfold NLP.queryRange at h
  by_cases hA : (hasSub "今天".toList text = true ∨ hasSub "今日".toList text = true)
  · rw [if_pos hA] at h
    obtain ⟨rfl, rfl, rfl⟩ : (p, s0, e0) = ("day", today, today) := (Except.ok.inj h).symm
    exact ⟨le_refl _, Or.inl rfl⟩
  · rw [if_neg hA] at h
    by_cases hB : (hasSub "這週".toList text = true ∨ hasSub "本週".toList text = true)
    · rw [if_pos hB] at h
      cases haz : addDaysZ today (-(pyWeekday today : ℤ)) with
      | error e => rw [haz] at h; exact absurd h (by simp [Except.map])
      | ok s =>
        rw [haz] at h
        simp only [Except.map] at h
        obtain ⟨rfl, rfl, rfl⟩ : (p, s0, e0) = ("week", s, today) := (Except.ok.inj h).symm
        exact ⟨addDaysZ_nonpos_le today _ (by omega) _ haz, Or.inl rfl⟩
    · rw [if_neg hB] at h
      by_cases hC : (hasSub "上個月".toList text = true ∨ hasSub "上月".toList text = true)
      · rw [if_pos hC] at h
        by_cases hF : 2 ≤ firstOfMonth today
        · rw [if_pos hF] at h
          obtain ⟨rfl, rfl, rfl⟩ :
              (p, s0, e0) = ("month", firstOfMonth (firstOfMonth today - 1),
                firstOfMonth today - 1) := (Except.ok.inj h).symm
          refine ⟨Nat.sub_le _ _, Or.inr ?_⟩
          unfold lastMonthBranchTaken
          simp only [Bool.and_eq_true, Bool.not_eq_true', Bool.or_eq_false_iff,
            Bool.or_eq_true]
          push_neg at hA hB
          exact ⟨⟨⟨Bool.not_eq_true _ ▸ hA.1, Bool.not_eq_true _ ▸ hA.2⟩,
            ⟨Bool.not_eq_true _ ▸ hB.1, Bool.not_eq_true _ ▸ hB.2⟩⟩, hC⟩
        · rw [if_neg hF] at h
          exact absurd h (by simp)
      · rw [if_neg hC] at h
        by_cases hD : (hasSub "這個月".toList text = true ∨ hasSub "本月".toList text = true)
        · rw [if_pos hD] at h
          obtain ⟨rfl, rfl, rfl⟩ : (p, s0, e0) = ("month", firstOfMonth today, today) :=
            (Except.ok.inj h).symm
          exact ⟨Nat.sub_le _ _, Or.inl rfl⟩
        · rw [if_neg hD] at h
          by_cases hE : hasSub "今年".toList text = true
          · rw [if_pos hE] at h
            obtain ⟨rfl, rfl, rfl⟩ : (p, s0, e0) = ("year", firstOfYear today, today) :=
              (Except.ok.inj h).symm
            exact ⟨Nat.sub_le _ _, Or.inl rfl⟩
          · rw [if_neg hE] at h
            obtain ⟨rfl, rfl, rfl⟩ : (p, s0, e0) = ("month", firstOfMonth today, today) :=
              (Except.ok.inj h).symm
            exact ⟨Nat.sub_le _ _, Or.inl rfl⟩

/-- The `近N個月` override either keeps the branch's start date or moves
it to at most the first of the current month. -/
theorem queryStart_bound (text : List Char) (today s0 s1 : ℕ)
    (h : NLP.queryStart text today s0 = .ok s1) :
    (s1 = s0 ∧ (NLP.searchNMonths text).isSome = false) ∨
    (s1 ≤ firstOfMonth today ∧ (NLP.searchNMonths text).isSome = true) := by
  unfold NLP.queryStart at h
  split at h
  · next run heq =>
      right
      exact ⟨monthBackLoop_le _ _ _ h, by rw [heq]; rfl⟩
  · next heq =>
      left
      exact ⟨(Except.ok.inj h).symm, by rw [heq]; rfl⟩

/-- A walk-back of at least one step lands at or before `s - 1`. -/
theorem monthBackLoop_pos_le (k : ℕ) (s r : ℕ)
    (h : NLP.monthBackLoop (k + 1) s = .ok r) : r ≤ s - 1 := by
  unfold NLP.monthBackLoop NLP.monthBackStep at h
  by_cases h2 : 2 ≤ s
  · rw [if_pos h2] at h
    simp only [bind, Except.bind] at h
    exact le_trans (monthBackLoop_le k _ _ h) (Nat.sub_le _ _)
  · rw [if_neg h2] at h
    simp [bind, Except.bind] at h

theorem queryStart_some (text : List Char) (today s0 : ℕ) (run : List Char)
    (hrun : NLP.searchNMonths text = some run) :
    NLP.queryStart text today s0 =
      NLP.monthBackLoop (NLP.nParseChineseNumber run - 1) (firstOfMonth today) := by
  unfold NLP.queryStart
  rw [hrun]

/-- When the last-month branch is the one taken, the time-range chain
returns exactly the previous month's bounds. -/
theorem queryRange_lastMonth (text : List Char) (today : ℕ) (p : String) (s0 e0 : ℕ)
    (hb : lastMonthBranchTaken text = true)
    (h : NLP.queryRange text today = .ok (p, s0, e0)) :
    2 ≤ firstOfMonth today ∧ s0 = firstOfMonth (firstOfMonth today - 1) ∧
      e0 = firstOfMonth today - 1 := by
  unfold lastMonthBranchTaken at hb
  simp only [Bool.and_eq_true, Bool.not_eq_true', Bool.or_eq_false_iff,
    Bool.or_eq_true] at hb
  obtain ⟨⟨⟨hA1, hA2⟩, ⟨hB1, hB2⟩⟩, hC⟩ := hb
  unfold NLP.queryRange at h
  rw [if_neg (by
    rintro (hx | hx)
    · rw [hA1] at hx; exact Bool.noConfusion hx
    · rw [hA2] at hx; exact Bool.noConfusion hx)] at h
  rw [if_neg (by
    rintro (hx | hx)
    · rw [hB1] at hx; exact Bool.noConfusion hx
    · rw [hB2] at hx; exact Bool.noConfusion hx)] at h
  rw [if_pos hC] at h
  by_cases hF : 2 ≤ firstOfMonth today
  · rw [if_pos hF] at h
    obtain ⟨rfl, rfl, rfl⟩ :
        (p, s0, e0) = ("month", firstOfMonth (firstOfMonth today - 1),
          firstOfMonth today - 1) := (Except.ok.inj h).symm
    exact ⟨hF, rfl, rfl⟩
  · rw [if_neg hF] at h
    exact absurd h (by simp)

/-- **C9**, amended: for every text and reference date on which
`parse_query` returns, `startDate ≤ endDate` holds **if and only if**
the text does not combine the last-month branch (上個月/上月 without a
preceding 今天/今日/這週/本週 match) with a `近N個月` match whose parsed
month count is at most 1.  In that combination the walk-back loop runs
zero times and leaves the start at the first of the current month while
the end stays at the last day of the previous month; with a month count
of 2 or more the walk-back crosses into the previous month or earlier
and the invariant holds. -/
theorem parseQuery_start_le_end_iff (text : List Char) (today : ℕ) (q : NLP.PQuery)
    (hok : NLP.parseQuery text today = .ok q) :
    (q.startDate ≤ q.endDate ↔
      ¬(lastMonthBranchTaken text = true ∧
        ∃ run, NLP.searchNMonths text = some run ∧
          NLP.nParseChineseNumber run ≤ 1)) := by
  unfold NLP.parseQuery at hok
  cases hr : NLP.queryRange text today with
  | error e => rw [hr] at hok; exact absurd hok (by simp [bind, Except.bind])
  | ok trip =>
    obtain ⟨p, s0, e0⟩ := trip
    rw [hr] at hok
    simp only [bind, Except.bind] at hok
    cases hs : NLP.queryStart text today s0 with
    | error e => rw [hs] at hok; exact absurd hok (by simp)
    | ok s1 =>
      rw [hs] at hok
      simp only [] at hok
      obtain rfl := (Except.ok.inj hok).symm
      show s1 ≤ e0 ↔ _
      constructor
      · rintro hle ⟨hb, run, hrun, hm1⟩
        obtain ⟨hF, rfl, rfl⟩ := queryRange_lastMonth text today p s0 e0 hb hr
        rw [queryStart_some text today _ run hrun] at hs
        rw [show NLP.nParseChineseNumber run - 1 = 0 from by omega] at hs
        unfold NLP.monthBackLoop at hs
        obtain rfl : s1 = firstOfMonth today := (Except.ok.inj hs).symm
        omega
      · intro hnb
        obtain ⟨hse, he0⟩ := queryRange_bound text today p s0 e0 hr
        rcases queryStart_bound text today s0 s1 hs with ⟨rfl, hnm⟩ | ⟨hle, hnm⟩
        · exact hse
        · rcases he0 with rfl | hlm
          · exact le_trans hle (Nat.sub_le _ _)
          · obtain ⟨run, hrun⟩ := Option.isSome_iff_exists.mp hnm
            have hm2 : 2 ≤ NLP.nParseChineseNumber run := by
              by_contra hlt
              exact hnb ⟨hlm, run, hrun, by omega⟩
            obtain ⟨hF, rfl, rfl⟩ := queryRange_lastMonth text today p s0 e0 hlm hr
            rw [queryStart_some text today _ run hrun] at hs
            obtain ⟨k, hk⟩ : ∃ k, NLP.nParseChineseNumber run - 1 = k + 1 :=
              ⟨NLP.nParseChineseNumber run - 2, by omega⟩
            rw [hk] at hs
            exact monthBackLoop_pos_le k _ _ hs

/-- **C9**, witness: the characterization applied to
`parseQuery("上個月2個月", 2024-03-15)` — the last-month branch combined
with a month count of 2, where the range 2024-02-01 .. 2024-02-29 keeps
`startDate ≤ endDate`. -/
theorem parseQuery_start_le_end_iff_witness :
    (NLP.PQuery.startDate
        ⟨"summary", none, "month", mkDate 2024 2 1, mkDate 2024 2 29, none⟩ ≤
      NLP.PQuery.endDate
        ⟨"summary", none, "month", mkDate 2024 2 1, mkDate 2024 2 29, none⟩ ↔
      ¬(lastMonthBranchTaken "上個月2個月".toList = true ∧
        ∃ run, NLP.searchNMonths "上個月2個月".toList = some run ∧
          NLP.nParseChineseNumber run ≤ 1)) :=
  parseQuery_start_le_end_iff "上個月2個月".toList (mkDate 2024 3 15) _ (by decide)

/-- **C9**, counterexample: `parseQuery("上個月1個月", 2024-03-15)` takes
the last-month branch (endDate 2024-02-29) but the `1個月` match resets
startDate to 2024-03-01, violating `startDate ≤ endDate`. -/
theorem query_range_cex :
    (NLP.parseQuery "上個月1個月".toList (mkDate 2024 3 15)).map
      (fun q => (q.startDate, q.endDate)) = .ok (mkDate 2024 3 1, mkDate 2024 2 29) ∧
    ¬(mkDate 2024 3 1 ≤ mkDate 2024 2 29) := by
  refine ⟨by decide, by decide⟩
